import Mathlib

/-!
Shallow embedding of the `monch` parser-combinator library (src/src/lib.rs).

The input cursor (a Rust `&str` suffix of the original input) is modelled as a
`List Char`; every combinator is a function `List Char → ParseResult O`.  The
unbounded `while` loops of `many_till` and `separated_list` are modelled with an
explicit fuel parameter: a result of `none` means the loop has not finished
within the given number of iterations (and `none` for every fuel is divergence).
-/

namespace Monch

/-- A complete parsing failure along with the location the error occurred
(`input`, the remaining cursor at the failure point) and the error message.
Mirrors `ParseErrorFailure` in lib.rs. -/
structure ParseErrorFailure where
  input : List Char
  message : String
deriving DecidableEq, Repr

/-- `ParseErrorFailure::new` -/
def ParseErrorFailure.new (input : List Char) (message : String) : ParseErrorFailure :=
  ⟨input, message⟩

/-- `ParseErrorFailure::new_for_trailing_input`: opinionated helper used to
fail for trailing input. -/
def ParseErrorFailure.new_for_trailing_input (input : List Char) : ParseErrorFailure :=
  ParseErrorFailure.new input "Unexpected character."

/-- The final, owned error string (`ParseErrorFailureError` in lib.rs). -/
structure ParseErrorFailureError where
  message : String
deriving DecidableEq, Repr

/-- `ParseErrorFailure::into_error`: formats the failure as
message, newline, two spaces, the first at most 60 characters of the input at
the failure location, newline, two spaces and a tilde. -/
def ParseErrorFailure.into_error (e : ParseErrorFailure) : ParseErrorFailureError :=
  ⟨e.message ++ "\n  " ++ String.mk (e.input.take 60) ++ "\n  ~"⟩

/-- An error that occurred while parsing: either a recoverable `Backtrace`
or a fatal `Failure`. -/
inductive ParseError where
  | Backtrace : ParseError
  | Failure : ParseErrorFailure → ParseError
deriving DecidableEq, Repr

/-- `ParseResult<'a, O>` from lib.rs. -/
abbrev ParseResult (O : Type) := Except ParseError (List Char × O)

/-- `ParseError::fail` -/
def ParseError.fail (input : List Char) (message : String) : ParseResult O :=
  .error (.Failure (ParseErrorFailure.new input message))

/-- `ParseError::backtrace` -/
def ParseError.backtrace : ParseResult O :=
  .error .Backtrace

/-- `with_failure_handling`: opinionated helper that converts a combinator
into a terminal result. -/
def with_failure_handling (combinator : List Char → ParseResult T) :
    List Char → Except ParseErrorFailureError T := fun input =>
  match combinator input with
  | .ok (rest, result) =>
    if !rest.isEmpty then
      .error (ParseErrorFailure.new_for_trailing_input rest).into_error
    else
      .ok result
  | .error .Backtrace =>
      .error (ParseErrorFailure.new_for_trailing_input input).into_error
  | .error (.Failure e) => .error e.into_error

/-- `next_char`: gets the next character. -/
def next_char : List Char → ParseResult Char
  | [] => ParseError.backtrace
  | c :: rest => .ok (rest, c)

/-- `if_true`: checks if a condition is true for a combinator. -/
def if_true (combinator : List Char → ParseResult O) (condition : O → Bool) :
    List Char → ParseResult O := fun input =>
  match combinator input with
  | .ok (rest, value) =>
      if condition value then .ok (rest, value) else ParseError.backtrace
  | .error e => .error e

/-- `ch`: recognizes a character. -/
def ch (c : Char) : List Char → ParseResult Char :=
  if_true next_char (fun found_char => found_char == c)

/-- `one_of`: recognizes any character in the provided string. -/
def one_of (value : List Char) : List Char → ParseResult Char := fun input =>
  match next_char input with
  | .ok (rest, c) =>
      if value.contains c then .ok (rest, c) else ParseError.backtrace
  | .error e => .error e

/-- `tag`: recognizes a string (`input.starts_with(&value)`). -/
def tag (value : List Char) : List Char → ParseResult (List Char) := fun input =>
  if value.isPrefixOf input then
    .ok (input.drop value.length, input.take value.length)
  else
    .error .Backtrace

/-- `substring`: gets the substring found for the duration of the combinator. -/
def substring (combinator : List Char → ParseResult O) :
    List Char → ParseResult (List Char) := fun input =>
  match combinator input with
  | .ok (rest, _) => .ok (rest, input.take (input.length - rest.length))
  | .error e => .error e

/-- `skip_while`: skip the input while the condition is true. -/
def skip_while (cond : Char → Bool) : List Char → ParseResult Unit
  | [] => .ok ([], ())
  | c :: rest =>
      if cond c then skip_while cond rest else .ok (c :: rest, ())

/-- `take_while`: takes a substring while the condition is true. -/
def take_while (cond : Char → Bool) : List Char → ParseResult (List Char) :=
  substring (skip_while cond)

/-- `maybe`: maps a success to `some` and a backtrace to `none`. -/
def maybe (combinator : List Char → ParseResult O) :
    List Char → ParseResult (Option O) := fun input =>
  match combinator input with
  | .ok (rest, value) => .ok (rest, some value)
  | .error .Backtrace => .ok (input, none)
  | .error e => .error e

/-- `map`: maps the success of a combinator by a function. -/
def map (combinator : List Char → ParseResult O) (func : O → R) :
    List Char → ParseResult R := fun input =>
  match combinator input with
  | .ok (rest, result) => .ok (rest, func result)
  | .error e => .error e

/-- `map_res`: maps the result of a combinator by a function. -/
def map_res (combinator : List Char → ParseResult O) (func : ParseResult O → R) :
    List Char → R := fun input =>
  func (combinator input)

/-- `or`: checks for either to match. -/
def or (a b : List Char → ParseResult O) : List Char → ParseResult O := fun input =>
  match a input with
  | .ok result => .ok result
  | .error .Backtrace => b input
  | .error e => .error e

/-- `pair`: returns both results of the two combinators. -/
def pair (first : List Char → ParseResult First) (second : List Char → ParseResult Second) :
    List Char → ParseResult (First × Second) := fun input =>
  match first input with
  | .error e => .error e
  | .ok (input1, first_value) =>
    match second input1 with
    | .error e => .error e
    | .ok (input2, second_value) => .ok (input2, (first_value, second_value))

/-- `preceded`: returns the second value and discards the first. -/
def preceded (first : List Char → ParseResult First) (second : List Char → ParseResult Second) :
    List Char → ParseResult Second :=
  map (pair first second) (fun p => p.2)

/-- `terminated`: returns the first value and discards the second. -/
def terminated (first : List Char → ParseResult First) (second : List Char → ParseResult Second) :
    List Char → ParseResult First :=
  map (pair first second) (fun p => p.1)

/-- `delimited`: gets a second value that is delimited by a first and third. -/
def delimited (first : List Char → ParseResult First)
    (second : List Char → ParseResult Second)
    (third : List Char → ParseResult Third) :
    List Char → ParseResult Second := fun input =>
  match first input with
  | .error e => .error e
  | .ok (input1, _) =>
    match second input1 with
    | .error e => .error e
    | .ok (input2, return_value) =>
      match third input2 with
      | .error e => .error e
      | .ok (input3, _) => .ok (input3, return_value)

/-- `assert`: asserts that a given condition is true about the combinator,
otherwise returns an error with the message.  On a failed condition the
combinator is re-invoked to recover error detail. -/
def assert (combinator : List Char → ParseResult O)
    (condition : ParseResult O → Bool) (message : String) :
    List Char → ParseResult O := fun input =>
  let result := combinator input
  if condition result then
    result
  else
    match combinator input with
    | .error (.Failure err) =>
        ParseError.fail err.input (message ++ "\n\n" ++ err.message)
    | _ => ParseError.fail input message

/-- `assert_exists`: asserts that a combinator resolves; if backtracing occurs,
returns a failure.  (Named `assertExists` here because `assert_exists` is a
reserved command name in the ambient library.) -/
def assertExists (combinator : List Char → ParseResult O) (message : String) :
    List Char → ParseResult O :=
  assert combinator (fun result => result.isOk) message

/-- `with_failure_input`: changes the input on a failure in order to provide a
better error message. -/
def with_failure_input (new_input : List Char)
    (combinator : List Char → ParseResult O) :
    List Char → ParseResult O := fun input =>
  match combinator input with
  | .error (.Failure err) => .error (.Failure { err with input := new_input })
  | result => result

/-- `with_error_context`: provides some context to a failure. -/
def with_error_context (combinator : List Char → ParseResult O) (message : String) :
    List Char → ParseResult O := fun input =>
  match combinator input with
  | .ok result => .ok result
  | .error .Backtrace => .error .Backtrace
  | .error (.Failure err) =>
      ParseError.fail err.input (message ++ "\n\n" ++ err.message)

/-- `is_backtrace` (private helper in lib.rs). -/
def is_backtrace (result : ParseResult O) : Except ParseError Bool :=
  match result with
  | .ok _ => .ok false
  | .error .Backtrace => .ok true
  | .error e => .error e

/-- The `while` loop of `many_till`, with explicit fuel: one unit of fuel per
iteration; `none` means the loop has not finished within the fuel. -/
def many_till_loop (combinator : List Char → ParseResult O)
    (condition : List Char → ParseResult OCondition) :
    Nat → List Char → List O → Option (ParseResult (List O))
  | 0, _, _ => none
  | fuel + 1, input, results =>
    if input.isEmpty then
      some (.ok (input, results))
    else
      match is_backtrace (condition input) with
      | .error e => some (.error e)
      | .ok false => some (.ok (input, results))
      | .ok true =>
        match combinator input with
        | .ok (result_input, value) =>
            many_till_loop combinator condition fuel result_input (results ++ [value])
        | .error .Backtrace => some (.ok (input, results))
        | .error e => some (.error e)

/-- `many_till`: keeps consuming a combinator into an array until a condition
is met or backtracing occurs. -/
def many_till (fuel : Nat) (combinator : List Char → ParseResult O)
    (condition : List Char → ParseResult OCondition) :
    List Char → Option (ParseResult (List O)) := fun input =>
  many_till_loop combinator condition fuel input []

/-- The `while` loop of `separated_list`, with explicit fuel. -/
def separated_list_loop (combinator : List Char → ParseResult O)
    (separator : List Char → ParseResult OSeparator) :
    Nat → List Char → List O → Option (ParseResult (List O))
  | 0, _, _ => none
  | fuel + 1, input, results =>
    if input.isEmpty then
      some (.ok (input, results))
    else
      match combinator input with
      | .error .Backtrace => some (.ok (input, results))
      | .error e => some (.error e)
      | .ok (result_input, value) =>
        match separator result_input with
        | .ok (sep_input, _) =>
            separated_list_loop combinator separator fuel sep_input (results ++ [value])
        | .error .Backtrace => some (.ok (result_input, results ++ [value]))
        | .error e => some (.error e)

/-- `separated_list`: keeps consuming a combinator into an array, interleaved
with a separator, until the combinator or the separator backtracks. -/
def separated_list (fuel : Nat) (combinator : List Char → ParseResult O)
    (separator : List Char → ParseResult OSeparator) :
    List Char → Option (ParseResult (List O)) := fun input =>
  separated_list_loop combinator separator fuel input []

/-- `many0`: applies the combinator 0 or more times and returns a vector of
all the parsed results. -/
def many0 (fuel : Nat) (combinator : List Char → ParseResult O) :
    List Char → Option (ParseResult (List O)) :=
  many_till fuel combinator (fun _ => (ParseError.backtrace : ParseResult Unit))

/-- `many1`: applies the combinator at least 1 time, but maybe more, and
returns a vector of all the parsed results (`if_not_empty(many0(combinator))`,
lifted over the fuel wrapper). -/
def many1 (fuel : Nat) (combinator : List Char → ParseResult O) :
    List Char → Option (ParseResult (List O)) := fun input =>
  match many0 fuel combinator input with
  | none => none
  | some (.ok (rest, items)) =>
      if !items.isEmpty then some (.ok (rest, items)) else some ParseError.backtrace
  | some (.error e) => some (.error e)

/-- `whitespace`: parses and expects whitespace. -/
def whitespace : List Char → ParseResult (List Char) := fun input =>
  if input.isEmpty then
    ParseError.backtrace
  else
    let matched := input.takeWhile Char.isWhitespace
    if matched.isEmpty then
      ParseError.backtrace
    else
      .ok (input.dropWhile Char.isWhitespace, matched)

/-- `skip_whitespace`: skips the whitespace. -/
def skip_whitespace : List Char → ParseResult Unit := fun input =>
  match whitespace input with
  | .ok (rest, _) => .ok (rest, ())
  | .error .Backtrace => .ok (input, ())
  | .error e => .error e

/-- `if_not_empty`: checks if the combinator result is not empty
(specialized to list results, the only instantiation the claims need). -/
def if_not_empty (combinator : List Char → ParseResult (List R)) :
    List Char → ParseResult (List R) :=
  if_true combinator (fun items => !items.isEmpty)

/-- `check_not`: checks if a combinator is false without consuming the input. -/
def check_not (combinator : List Char → ParseResult O) :
    List Char → ParseResult Unit := fun input =>
  match combinator input with
  | .ok _ => ParseError.backtrace
  | .error _ => .ok (input, ())

/-- The progress invariant of the spec: a combinator only ever returns a
cursor that is a suffix of (or equal to) the one given to it. -/
def SuffixPreserving (combinator : List Char → ParseResult O) : Prop :=
  ∀ input rest value, combinator input = .ok (rest, value) → rest <:+ input

/-! ## Theorems -/

/-- C1: `or(A, B)(i)` equals `A(i)` whenever `A(i)` is a success or a
`Failure` (so `B` is never consulted after a hard failure), and equals
`B(i)` on the original, unadvanced cursor exactly when `A(i)` is
`Backtrace`. -/
theorem or_alternation_law (a b : List Char → ParseResult O) (input : List Char) :
    (∀ result, a input = .ok result → or a b input = a input) ∧
    (∀ f, a input = .error (.Failure f) → or a b input = a input) ∧
    (a input = .error .Backtrace → or a b input = b input) := by
  refine ⟨fun r h => ?_, fun f h => ?_, fun h => ?_⟩ <;> simp [or, h]

/-- Witness for C1 at concrete inputs: the first alternative backtracks on
`"b"`, so `or` returns the second alternative's outcome. -/
theorem or_alternation_law_witness :
    or (tag ['a']) (tag ['b']) ['b'] = .ok ([], ['b']) :=
  ((or_alternation_law (tag ['a']) (tag ['b']) ['b']).2.2 rfl).trans rfl

/-- C2: the driver `with_failure_handling(C)(i)` succeeds with `v` iff
`C(i)` succeeds with an empty remaining cursor and value `v`; leftover input
yields the trailing-input failure at the remainder; a top-level `Backtrace`
yields the trailing-input failure at the original input; a `Failure` is
formatted and returned. -/
theorem with_failure_handling_driver_completeness
    (C : List Char → ParseResult T) (input : List Char) :
    (∀ v, with_failure_handling C input = .ok v ↔ C input = .ok ([], v)) ∧
    (∀ rest v, C input = .ok (rest, v) → rest ≠ [] →
        with_failure_handling C input =
          .error (ParseErrorFailure.new_for_trailing_input rest).into_error) ∧
    (C input = .error .Backtrace →
        with_failure_handling C input =
          .error (ParseErrorFailure.new_for_trailing_input input).into_error) ∧
    (∀ f, C input = .error (.Failure f) →
        with_failure_handling C input = .error f.into_error) := by
  refine ⟨?_, ?_, ?_, ?_⟩
  · intro v
    cases hC : C input with
    | ok p =>
      obtain ⟨rest, result⟩ := p
      by_cases hr : rest = []
      · subst hr; simp [with_failure_handling, hC]
      · simp [with_failure_handling, hC, hr, List.isEmpty_iff]
    | error e =>
      cases e with
      | Backtrace => simp [with_failure_handling, hC]
      | Failure f => simp [with_failure_handling, hC]
  · intro rest v hC hr
    simp [with_failure_handling, hC, List.isEmpty_iff, hr]
  · intro hC
    simp [with_failure_handling, hC]
  · intro f hC
    simp [with_failure_handling, hC]

/-- Witness for C2 at a concrete input: `tag "a"` consumes all of `"a"`,
so the driver succeeds. -/
theorem with_failure_handling_driver_completeness_witness :
    with_failure_handling (tag ['a']) ['a'] = .ok ['a'] :=
  ((with_failure_handling_driver_completeness (tag ['a']) ['a']).1 ['a']).mpr rfl

/-- C8: `check_not(C)` succeeds with unit value and the unchanged cursor iff
`C` errors (of either kind), backtracks iff `C` succeeds, never consumes
input, and never returns a hard `Failure`. -/
theorem check_not_negative_lookahead
    (C : List Char → ParseResult O) (input : List Char) :
    (∀ e, C input = .error e → check_not C input = .ok (input, ())) ∧
    (∀ rest v, C input = .ok (rest, v) → check_not C input = .error .Backtrace) ∧
    (∀ rest v, check_not C input = .ok (rest, v) → rest = input) ∧
    (∀ f, check_not C input ≠ .error (.Failure f)) := by
  refine ⟨?_, ?_, ?_, ?_⟩
  · intro e hC
    simp [check_not, hC]
  · intro rest v hC
    simp [check_not, hC, ParseError.backtrace]
  · intro rest v h
    cases hC : C input with
    | ok p => simp [check_not, hC, ParseError.backtrace] at h
    | error e => simp [check_not, hC] at h; exact h.symm
  · intro f h
    cases hC : C input with
    | ok p => simp [check_not, hC, ParseError.backtrace] at h
    | error e => simp [check_not, hC] at h

/-- Witness for C8 at a concrete input: `tag "z"` backtracks on `"a"`, so
`check_not(tag "z")` succeeds without consuming. -/
theorem check_not_negative_lookahead_witness :
    check_not (tag ['z']) ['a'] = .ok (['a'], ()) :=
  (check_not_negative_lookahead (tag ['z']) ['a']).1 .Backtrace rfl

/-- C9: formatting a `Failure` produces exactly
message, newline, two spaces, snippet, newline, two spaces, tilde, where the
snippet is the first at-most-60 characters of the location text; the snippet
is a prefix made of whole characters (at char granularity a multi-byte code
point is never split). -/
theorem into_error_fixed_layout (f : ParseErrorFailure) :
    f.into_error =
      ⟨f.message ++ "\n  " ++ String.mk (f.input.take 60) ++ "\n  ~"⟩ ∧
    (f.input.take 60).length ≤ 60 ∧
    f.input.take 60 <+: f.input := by
  refine ⟨rfl, ?_, List.take_prefix 60 f.input⟩
  simp [List.length_take]

/-- C7: `tag(s)(i)` succeeds iff `i` starts with `s` literally, in which case
it consumes exactly `len(s)` characters and its value is the matched prefix
(which equals `s`); otherwise it backtracks and never hard-fails. -/
theorem tag_exactness (s input : List Char) :
    ((∃ rest value, tag s input = .ok (rest, value)) ↔ s <+: input) ∧
    (s <+: input →
        tag s input = .ok (input.drop s.length, s) ∧
        input.length = s.length + (input.drop s.length).length) ∧
    (¬ s <+: input → tag s input = .error .Backtrace) := by
  by_cases hp : s <+: input
  · have hb : s.isPrefixOf input = true := by simpa using hp
    have htake : input.take s.length = s := ( List.prefix_iff_eq_take.mp hp).symm
    have hlen : s.length ≤ input.length := hp.length_le
    refine ⟨?_, fun _ => ⟨?_, ?_⟩, fun h => absurd hp h⟩
    · simp [tag, hb, hp]
    · simp [tag, hb, htake]
    · simp [List.length_drop]
      omega
  · have hb : s.isPrefixOf input = false := by
      cases hbv : s.isPrefixOf input with
      | false => rfl
      | true => exact absurd (by simpa using hbv) hp
    refine ⟨?_, fun h => absurd h hp, fun _ => ?_⟩
    · simp [tag, hb, hp]
    · simp [tag, hb]

/-- Witness for C7 at a concrete input: `tag "ab"` on `"abc"` consumes the
two matched characters and returns them. -/
theorem tag_exactness_witness :
    tag ['a', 'b'] ['a', 'b', 'c'] =
        .ok ((['a', 'b', 'c'] : List Char).drop (['a', 'b'] : List Char).length,
          ['a', 'b']) ∧
    (['a', 'b', 'c'] : List Char).length =
      (['a', 'b'] : List Char).length +
        ((['a', 'b', 'c'] : List Char).drop (['a', 'b'] : List Char).length).length :=
  (tag_exactness ['a', 'b'] ['a', 'b', 'c']).2.1 ⟨['c'], rfl⟩

/-- Every error returned by the `many_till` loop is a hard `Failure`:
the loop converts every `Backtrace` (of the condition or of the combinator)
into a successful exit. -/
theorem many_till_loop_error_is_failure (comb : List Char → ParseResult O)
    (cond : List Char → ParseResult OC) :
    ∀ fuel input acc e,
      many_till_loop comb cond fuel input acc = some (.error e) →
      ∃ f, e = .Failure f := by
  intro fuel
  induction fuel with
  | zero =>
    intro input acc e h
    simp [many_till_loop] at h
  | succ n ih =>
    intro input acc e h
    by_cases hi : input.isEmpty
    · simp [many_till_loop, hi] at h
    · cases hcond : cond input with
      | ok p =>
        simp [many_till_loop, hi, is_backtrace, hcond] at h
      | error ce =>
        cases ce with
        | Failure f =>
          simp [many_till_loop, hi, is_backtrace, hcond] at h
          exact ⟨f, h.symm⟩
        | Backtrace =>
          cases hcomb : comb input with
          | ok q =>
            obtain ⟨ri, v⟩ := q
            simp [many_till_loop, hi, is_backtrace, hcond, hcomb] at h
            exact ih ri (acc ++ [v]) e h
          | error be =>
            cases be with
            | Backtrace =>
              simp [many_till_loop, hi, is_backtrace, hcond, hcomb] at h
            | Failure f =>
              simp [many_till_loop, hi, is_backtrace, hcond, hcomb] at h
              exact ⟨f, h.symm⟩

/-- The accumulator only grows: whatever list the `many_till` loop returns
extends the accumulator it was started with. -/
theorem many_till_loop_acc_grows (comb : List Char → ParseResult O)
    (cond : List Char → ParseResult OC) :
    ∀ fuel input acc rest vs,
      many_till_loop comb cond fuel input acc = some (.ok (rest, vs)) →
      acc <+: vs := by
  intro fuel
  induction fuel with
  | zero =>
    intro input acc rest vs h
    simp [many_till_loop] at h
  | succ n ih =>
    intro input acc rest vs h
    by_cases hi : input.isEmpty
    · simp [many_till_loop, hi] at h
      exact h.2 ▸ List.prefix_rfl
    · cases hcond : cond input with
      | ok p =>
        simp [many_till_loop, hi, is_backtrace, hcond] at h
        exact h.2 ▸ List.prefix_rfl
      | error ce =>
        cases ce with
        | Failure f =>
          simp [many_till_loop, hi, is_backtrace, hcond] at h
        | Backtrace =>
          cases hcomb : comb input with
          | ok q =>
            obtain ⟨ri, v⟩ := q
            simp [many_till_loop, hi, is_backtrace, hcond, hcomb] at h
            exact ( List.prefix_append acc [v]).trans (ih ri (acc ++ [v]) rest vs h)
          | error be =>
            cases be with
            | Backtrace =>
              simp [many_till_loop, hi, is_backtrace, hcond, hcomb] at h
              exact h.2 ▸ List.prefix_rfl
            | Failure f =>
              simp [many_till_loop, hi, is_backtrace, hcond, hcomb] at h

/-- If the inner combinator never hard-fails, the `many0` loop (whose
condition always backtracks) can only exit successfully. -/
theorem many0_loop_ok_of_no_failure (C : List Char → ParseResult O)
    (hC : ∀ j f, C j ≠ .error (.Failure f)) :
    ∀ fuel input acc res,
      many_till_loop C (fun _ => (ParseError.backtrace : ParseResult Unit))
          fuel input acc = some res →
      ∃ r, res = .ok r := by
  intro fuel
  induction fuel with
  | zero =>
    intro input acc res h
    simp [many_till_loop] at h
  | succ n ih =>
    intro input acc res h
    by_cases hi : input.isEmpty
    · simp [many_till_loop, hi] at h
      exact ⟨_, h.symm⟩
    · cases hcomb : C input with
      | ok q =>
        obtain ⟨ri, v⟩ := q
        simp [many_till_loop, hi, is_backtrace, ParseError.backtrace, hcomb] at h
        exact ih ri (acc ++ [v]) res h
      | error be =>
        cases be with
        | Backtrace =>
          simp [many_till_loop, hi, is_backtrace, ParseError.backtrace, hcomb] at h
          exact ⟨_, h.symm⟩
        | Failure f =>
          exact absurd hcomb (hC input f)

/-- C3 (amended): `many0(C)(i)` never produces `Backtrace`: when the loop
terminates, every error it returns is a hard `Failure` propagated from `C`,
and it always succeeds when `C` never hard-fails; the collected sequence is
empty iff `i` is empty or `C` backtracks immediately on `i`. -/
theorem many0_totality_amended (C : List Char → ParseResult O) (fuel : Nat)
    (input : List Char) (res : ParseResult (List O))
    (h : many0 fuel C input = some res) :
    (∀ e, res = .error e → ∃ f, e = .Failure f) ∧
    ((∀ j f, C j ≠ .error (.Failure f)) → ∃ r, res = .ok r) ∧
    (∀ rest vs, res = .ok (rest, vs) →
        (vs = [] ↔ input = [] ∨ C input = .error .Backtrace)) := by
  have h' : many_till_loop C (fun _ => (ParseError.backtrace : ParseResult Unit))
      fuel input [] = some res := h
  refine ⟨?_, ?_, ?_⟩
  · intro e he
    exact many_till_loop_error_is_failure C _ fuel input [] e (he ▸ h')
  · intro hC
    exact many0_loop_ok_of_no_failure C hC fuel input [] res h'
  · intro rest vs he
    subst he
    cases fuel with
    | zero => simp [many_till_loop] at h'
    | succ n =>
      by_cases hi : input.isEmpty
      · have hinil : input = [] := List.isEmpty_iff.mp hi
        simp [many_till_loop, hi] at h'
        simp [hinil, h'.2.symm]
      · have hne : input ≠ [] := fun hx => hi (List.isEmpty_iff.mpr hx)
        cases hcomb : C input with
        | ok q =>
          obtain ⟨ri, v⟩ := q
          simp [many_till_loop, hi, is_backtrace, ParseError.backtrace, hcomb] at h'
          have hgrow : [v] <+: vs :=
            many_till_loop_acc_grows C _ n ri [v] rest vs (by simpa using h')
          obtain ⟨t, ht⟩ := hgrow
          constructor
          · intro hvs
            rw [← ht] at hvs
            simp at hvs
          · intro hor
            rcases hor with hx | hx
            · exact absurd hx hne
            · simp [hcomb] at hx
        | error be =>
          cases be with
          | Backtrace =>
            simp [many_till_loop, hi, is_backtrace, ParseError.backtrace, hcomb] at h'
            simp [h'.2.symm, hcomb]
          | Failure f =>
            simp [many_till_loop, hi, is_backtrace, ParseError.backtrace, hcomb] at h'

/-- Witness for C3's amended theorem at a concrete input: `many0(ch 'a')` on
`"ab"` collects one `'a'`, and the collected sequence is accordingly
non-empty while the input is non-empty and `ch 'a'` does not backtrack. -/
theorem many0_totality_amended_witness :
    (['a'] : List Char) = [] ↔
      ['a', 'b'] = ([] : List Char) ∨ ch 'a' ['a', 'b'] = .error .Backtrace :=
  (many0_totality_amended (ch 'a') 3 ['a', 'b'] (.ok (['b'], ['a'])) rfl).2.2
    ['b'] ['a'] rfl

/-- Counterexample for C3 as stated: `many0` does not always succeed — a hard
failure of the inner combinator propagates (first conjunct, on input `"a"`),
and on empty input the collected sequence is empty even though the inner
combinator (`tag ""`) succeeds rather than backtracks (second and third
conjuncts). -/
theorem many0_totality_counterexample :
    many0 5 (fun input => (ParseError.fail input "boom" : ParseResult Unit)) ['a']
      = some (.error (.Failure (ParseErrorFailure.new ['a'] "boom"))) ∧
    many0 5 (tag []) [] = some (.ok ([], [])) ∧
    tag [] ([] : List Char) = .ok ([], []) :=
  ⟨rfl, rfl, rfl⟩

/-- With the zero-width always-succeeding combinator `tag ""` and a condition
that backtracks on the (never-changing) cursor, the `many_till` loop consumes
all fuel without finishing: no amount of fuel completes it. -/
theorem many_till_loop_zero_width_diverges (cond : List Char → ParseResult OC)
    (c : Char) (cs : List Char) (hcond : cond (c :: cs) = .error .Backtrace) :
    ∀ fuel acc, many_till_loop (tag []) cond fuel (c :: cs) acc = none := by
  intro fuel
  induction fuel with
  | zero => intro acc; rfl
  | succ n ih =>
    intro acc
    have htag : tag [] (c :: cs) = .ok (c :: cs, []) := rfl
    simp only [many_till_loop, List.isEmpty_cons, is_backtrace, hcond, htag,
      Bool.false_eq_true, if_false]
    exact ih (acc ++ [[]])

/-- With zero-width always-succeeding combinator and separator (`tag ""`),
the `separated_list` loop consumes all fuel without finishing. -/
theorem separated_list_loop_zero_width_diverges (c : Char) (cs : List Char) :
    ∀ fuel acc,
      separated_list_loop (tag []) (tag []) fuel (c :: cs) acc = none := by
  intro fuel
  induction fuel with
  | zero => intro acc; rfl
  | succ n ih =>
    intro acc
    have htag : tag [] (c :: cs) = .ok (c :: cs, []) := rfl
    simp only [separated_list_loop, List.isEmpty_cons, htag, Bool.false_eq_true,
      if_false]
    exact ih (acc ++ [[]])

/-- C5: a combinator that succeeds while consuming zero characters
(here `tag ""`) makes each repetition loop non-terminating on any non-empty
input: for every fuel the loop still has not finished (`none`), i.e. no
invariant forces forward progress after a zero-width inner success.  The
`many_till` instance uses the stop condition `check_not(tag "")`, which
backtracks on every cursor. -/
theorem zero_width_success_nontermination (c : Char) (cs : List Char) (fuel : Nat) :
    many0 fuel (tag []) (c :: cs) = none ∧
    many_till fuel (tag []) (check_not (tag [])) (c :: cs) = none ∧
    separated_list fuel (tag []) (tag []) (c :: cs) = none := by
  refine ⟨?_, ?_, ?_⟩
  · exact many_till_loop_zero_width_diverges _ c cs rfl fuel []
  · exact many_till_loop_zero_width_diverges _ c cs rfl fuel []
  · exact separated_list_loop_zero_width_diverges c cs fuel []

/-- C10: on empty input, `many0`, `many_till` and `separated_list` succeed
immediately with an empty collected list and the empty cursor, for arbitrary
inner, stop and separator combinators (none of them is consulted — the result
does not depend on them, even when the inner combinator would succeed on the
empty input). -/
theorem repetition_empty_input (C : List Char → ParseResult O)
    (stop : List Char → ParseResult S) (sep : List Char → ParseResult S2)
    (fuel : Nat) :
    many0 (fuel + 1) C [] = some (.ok ([], [])) ∧
    many_till (fuel + 1) C stop [] = some (.ok ([], [])) ∧
    separated_list (fuel + 1) C sep [] = some (.ok ([], [])) := by
  refine ⟨?_, ?_, ?_⟩ <;>
    simp [many0, many_till, separated_list, many_till_loop, separated_list_loop]

/-- C4 (amended): `separated_list(C, sep)` loops while input remains: run `C`;
on backtrack stop and return what was collected; on hard failure propagate; on
success accumulate and then attempt `sep`; if `sep` backtracks stop (with the
cursor after `C`, the separator unconsumed); if `sep` hard-fails propagate;
otherwise continue on the cursor past the separator.  A separator match is
consumed immediately, so the returned cursor may lie past a trailing separator
when the end of input or a backtracking `C` follows it. -/
theorem separated_list_loop_behavior (C : List Char → ParseResult O)
    (sep : List Char → ParseResult S) (fuel : Nat) (input : List Char)
    (acc : List O) :
    (separated_list fuel C sep input = separated_list_loop C sep fuel input []) ∧
    (input = [] →
        separated_list_loop C sep (fuel + 1) input acc = some (.ok (input, acc))) ∧
    (input ≠ [] → C input = .error .Backtrace →
        separated_list_loop C sep (fuel + 1) input acc = some (.ok (input, acc))) ∧
    (∀ f, input ≠ [] → C input = .error (.Failure f) →
        separated_list_loop C sep (fuel + 1) input acc =
          some (.error (.Failure f))) ∧
    (∀ rest v, input ≠ [] → C input = .ok (rest, v) →
        sep rest = .error .Backtrace →
        separated_list_loop C sep (fuel + 1) input acc =
          some (.ok (rest, acc ++ [v]))) ∧
    (∀ rest v f, input ≠ [] → C input = .ok (rest, v) →
        sep rest = .error (.Failure f) →
        separated_list_loop C sep (fuel + 1) input acc =
          some (.error (.Failure f))) ∧
    (∀ rest v rest2 s, input ≠ [] → C input = .ok (rest, v) →
        sep rest = .ok (rest2, s) →
        separated_list_loop C sep (fuel + 1) input acc =
          separated_list_loop C sep fuel rest2 (acc ++ [v])) := by
  refine ⟨rfl, ?_, ?_, ?_, ?_, ?_, ?_⟩
  · intro hnil
    subst hnil
    simp [separated_list_loop]
  · intro hne hC
    simp [separated_list_loop, List.isEmpty_iff, hne, hC]
  · intro f hne hC
    simp [separated_list_loop, List.isEmpty_iff, hne, hC]
  · intro rest v hne hC hsep
    simp [separated_list_loop, List.isEmpty_iff, hne, hC, hsep]
  · intro rest v f hne hC hsep
    simp [separated_list_loop, List.isEmpty_iff, hne, hC, hsep]
  · intro rest v rest2 s hne hC hsep
    simp [separated_list_loop, List.isEmpty_iff, hne, hC, hsep]

/-- Witness for C4's amended theorem at a concrete input: on `"x"` the
element matches, the separator backtracks on the empty remainder, and the
loop stops with the one collected element. -/
theorem separated_list_loop_behavior_witness :
    separated_list_loop (tag ['x']) (tag [',']) 3 ['x'] [] =
      some (.ok ([], [['x']])) :=
  (separated_list_loop_behavior (tag ['x']) (tag [',']) 2 ['x'] []).2.2.2.2.1
    [] ['x'] (by simp) rfl rfl

/-- Counterexample for C4 as stated: in `separated_list(tag "x", tag ",")` on
`"x,y"` the trailing separator is consumed even though no successful element
match follows it — the returned cursor is `"y"`, past the comma, while
`tag "x"` backtracks on `"y"`. -/
theorem separated_list_trailing_separator_counterexample :
    separated_list 5 (tag ['x']) (tag [',']) ['x', ',', 'y'] =
      some (.ok (['y'], [['x']])) ∧
    tag ['x'] ['y'] = .error .Backtrace :=
  ⟨rfl, rfl⟩

theorem sp_next_char : SuffixPreserving next_char := by
  intro input rest value h
  cases input with
  | nil => simp [next_char, ParseError.backtrace] at h
  | cons c cs =>
    simp [next_char] at h
    exact h.1 ▸ List.suffix_cons c cs

theorem sp_if_true (C : List Char → ParseResult O) (cond : O → Bool)
    (h : SuffixPreserving C) : SuffixPreserving (if_true C cond) := by
  intro input rest value hr
  cases hC : C input with
  | ok p =>
    obtain ⟨r1, v1⟩ := p
    by_cases hcv : cond v1
    · simp [if_true, hC, hcv] at hr
      exact hr.1 ▸ h input r1 v1 hC
    · simp [if_true, hC, hcv, ParseError.backtrace] at hr
  | error e => simp [if_true, hC] at hr

theorem sp_ch (c : Char) : SuffixPreserving (ch c) :=
  sp_if_true next_char _ sp_next_char

theorem sp_one_of (v : List Char) : SuffixPreserving (one_of v) := by
  intro input rest value h
  cases hn : next_char input with
  | ok p =>
    obtain ⟨r1, c1⟩ := p
    simp [one_of, hn, ParseError.backtrace] at h
    split at h
    · simp at h
      exact h.1 ▸ sp_next_char input r1 c1 hn
    · simp at h
  | error e => simp [one_of, hn] at h

theorem sp_tag (s : List Char) : SuffixPreserving (tag s) := by
  intro input rest value h
  by_cases hp : s.isPrefixOf input
  · simp [tag, hp] at h
    exact h.1 ▸ List.drop_suffix s.length input
  · simp [tag, hp] at h

theorem sp_substring (C : List Char → ParseResult O)
    (h : SuffixPreserving C) : SuffixPreserving (substring C) := by
  intro input rest value hr
  cases hC : C input with
  | ok p =>
    obtain ⟨r1, v1⟩ := p
    simp [substring, hC] at hr
    exact hr.1 ▸ h input r1 v1 hC
  | error e => simp [substring, hC] at hr

theorem sp_skip_while (p : Char → Bool) : SuffixPreserving (skip_while p) := by
  intro input
  induction input with
  | nil =>
    intro rest value h
    simp [skip_while] at h
    subst h
    exact List.suffix_refl []
  | cons c cs ih =>
    intro rest value h
    by_cases hc : p c
    · simp [skip_while, hc] at h
      exact (ih rest value h).trans (List.suffix_cons c cs)
    · simp [skip_while, hc] at h
      subst h
      exact List.suffix_refl _

theorem sp_take_while (p : Char → Bool) : SuffixPreserving (take_while p) :=
  sp_substring _ (sp_skip_while p)

theorem sp_maybe (C : List Char → ParseResult O)
    (h : SuffixPreserving C) : SuffixPreserving (maybe C) := by
  intro input rest value hr
  cases hC : C input with
  | ok p =>
    obtain ⟨r1, v1⟩ := p
    simp [maybe, hC] at hr
    exact hr.1 ▸ h input r1 v1 hC
  | error e =>
    cases e with
    | Backtrace =>
      simp [maybe, hC] at hr
      exact hr.1 ▸ List.suffix_refl _
    | Failure f => simp [maybe, hC] at hr

theorem sp_map (C : List Char → ParseResult O) (f : O → R)
    (h : SuffixPreserving C) : SuffixPreserving (map C f) := by
  intro input rest value hr
  cases hC : C input with
  | ok p =>
    obtain ⟨r1, v1⟩ := p
    simp [map, hC] at hr
    exact hr.1 ▸ h input r1 v1 hC
  | error e => simp [map, hC] at hr

theorem sp_or (a b : List Char → ParseResult O)
    (ha : SuffixPreserving a) (hb : SuffixPreserving b) :
    SuffixPreserving (or a b) := by
  intro input rest value hr
  cases hA : a input with
  | ok p =>
    obtain ⟨r1, v1⟩ := p
    simp [or, hA] at hr
    exact hr.1 ▸ ha input r1 v1 hA
  | error e =>
    cases e with
    | Backtrace =>
      simp [or, hA] at hr
      exact hb input rest value hr
    | Failure f => simp [or, hA] at hr

theorem sp_pair (a : List Char → ParseResult F) (b : List Char → ParseResult S)
    (ha : SuffixPreserving a) (hb : SuffixPreserving b) :
    SuffixPreserving (pair a b) := by
  intro input rest value hr
  cases hA : a input with
  | error e => simp [pair, hA] at hr
  | ok p =>
    obtain ⟨r1, v1⟩ := p
    cases hB : b r1 with
    | error e => simp [pair, hA, hB] at hr
    | ok q =>
      obtain ⟨r2, v2⟩ := q
      simp [pair, hA, hB] at hr
      exact hr.1 ▸ (hb r1 r2 v2 hB).trans (ha input r1 v1 hA)

theorem sp_preceded (a : List Char → ParseResult F) (b : List Char → ParseResult S)
    (ha : SuffixPreserving a) (hb : SuffixPreserving b) :
    SuffixPreserving (preceded a b) :=
  sp_map _ _ (sp_pair a b ha hb)

theorem sp_terminated (a : List Char → ParseResult F) (b : List Char → ParseResult S)
    (ha : SuffixPreserving a) (hb : SuffixPreserving b) :
    SuffixPreserving (terminated a b) :=
  sp_map _ _ (sp_pair a b ha hb)

theorem sp_delimited (a : List Char → ParseResult F) (b : List Char → ParseResult S)
    (c : List Char → ParseResult T)
    (ha : SuffixPreserving a) (hb : SuffixPreserving b) (hc : SuffixPreserving c) :
    SuffixPreserving (delimited a b c) := by
  intro input rest value hr
  cases hA : a input with
  | error e => simp [delimited, hA] at hr
  | ok p =>
    obtain ⟨r1, v1⟩ := p
    cases hB : b r1 with
    | error e => simp [delimited, hA, hB] at hr
    | ok q =>
      obtain ⟨r2, v2⟩ := q
      cases hCc : c r2 with
      | error e => simp [delimited, hA, hB, hCc] at hr
      | ok w =>
        obtain ⟨r3, v3⟩ := w
        simp [delimited, hA, hB, hCc] at hr
        exact hr.1 ▸
          ((hc r2 r3 v3 hCc).trans (hb r1 r2 v2 hB)).trans (ha input r1 v1 hA)

theorem sp_assert (C : List Char → ParseResult O) (cond : ParseResult O → Bool)
    (m : String) (h : SuffixPreserving C) : SuffixPreserving (assert C cond m) := by
  intro input rest value hr
  unfold assert at hr
  by_cases hcnd : cond (C input)
  · simp [hcnd] at hr
    exact h input rest value hr
  · simp [hcnd] at hr
    cases hC : C input with
    | ok p => simp [hC, ParseError.fail] at hr
    | error e => cases e <;> simp [hC, ParseError.fail] at hr

theorem sp_assertExists (C : List Char → ParseResult O) (m : String)
    (h : SuffixPreserving C) : SuffixPreserving (assertExists C m) :=
  sp_assert C _ m h

theorem sp_with_failure_input (ni : List Char) (C : List Char → ParseResult O)
    (h : SuffixPreserving C) : SuffixPreserving (with_failure_input ni C) := by
  intro input rest value hr
  cases hC : C input with
  | ok p =>
    obtain ⟨r1, v1⟩ := p
    simp [with_failure_input, hC] at hr
    exact hr.1 ▸ h input r1 v1 hC
  | error e => cases e <;> simp [with_failure_input, hC] at hr

theorem sp_with_error_context (C : List Char → ParseResult O) (m : String)
    (h : SuffixPreserving C) : SuffixPreserving (with_error_context C m) := by
  intro input rest value hr
  cases hC : C input with
  | ok p =>
    obtain ⟨r1, v1⟩ := p
    simp [with_error_context, hC] at hr
    exact hr.1 ▸ h input r1 v1 hC
  | error e => cases e <;> simp [with_error_context, hC, ParseError.fail] at hr

theorem sp_whitespace : SuffixPreserving whitespace := by
  intro input rest value h
  by_cases hi : input.isEmpty
  · simp [whitespace, hi, ParseError.backtrace] at h
  · by_cases hm : (input.takeWhile Char.isWhitespace).isEmpty
    · simp [whitespace, hi, hm, ParseError.backtrace] at h
    · simp [whitespace, hi, hm] at h
      exact h.1 ▸ List.dropWhile_suffix _

theorem sp_skip_whitespace : SuffixPreserving skip_whitespace := by
  intro input rest value h
  cases hw : whitespace input with
  | ok p =>
    obtain ⟨r1, v1⟩ := p
    simp [skip_whitespace, hw] at h
    exact h ▸ sp_whitespace input r1 v1 hw
  | error e =>
    cases e with
    | Backtrace =>
      simp [skip_whitespace, hw] at h
      subst h
      exact List.suffix_refl _
    | Failure f => simp [skip_whitespace, hw] at h

theorem sp_if_not_empty (C : List Char → ParseResult (List R))
    (h : SuffixPreserving C) : SuffixPreserving (if_not_empty C) :=
  sp_if_true C _ h

theorem sp_check_not (C : List Char → ParseResult O) :
    SuffixPreserving (check_not C) := by
  intro input rest value h
  cases hC : C input with
  | ok p => simp [check_not, hC, ParseError.backtrace] at h
  | error e =>
    simp [check_not, hC] at h
    subst h
    exact List.suffix_refl _

theorem sp_many_till_loop (C : List Char → ParseResult O)
    (cond : List Char → ParseResult OC) (hC : SuffixPreserving C) :
    ∀ fuel input acc rest vs,
      many_till_loop C cond fuel input acc = some (.ok (rest, vs)) →
      rest <:+ input := by
  intro fuel
  induction fuel with
  | zero =>
    intro input acc rest vs h
    simp [many_till_loop] at h
  | succ n ih =>
    intro input acc rest vs h
    by_cases hi : input.isEmpty
    · simp [many_till_loop, hi] at h
      exact h.1 ▸ List.suffix_refl _
    · cases hcond : cond input with
      | ok p =>
        simp [many_till_loop, hi, is_backtrace, hcond] at h
        exact h.1 ▸ List.suffix_refl _
      | error ce =>
        cases ce with
        | Failure f => simp [many_till_loop, hi, is_backtrace, hcond] at h
        | Backtrace =>
          cases hcomb : C input with
          | ok q =>
            obtain ⟨ri, v⟩ := q
            simp [many_till_loop, hi, is_backtrace, hcond, hcomb] at h
            exact (ih ri (acc ++ [v]) rest vs h).trans (hC input ri v hcomb)
          | error be =>
            cases be with
            | Backtrace =>
              simp [many_till_loop, hi, is_backtrace, hcond, hcomb] at h
              exact h.1 ▸ List.suffix_refl _
            | Failure f =>
              simp [many_till_loop, hi, is_backtrace, hcond, hcomb] at h

theorem sp_separated_list_loop (C : List Char → ParseResult O)
    (sep : List Char → ParseResult S)
    (hC : SuffixPreserving C) (hsep : SuffixPreserving sep) :
    ∀ fuel input acc rest vs,
      separated_list_loop C sep fuel input acc = some (.ok (rest, vs)) →
      rest <:+ input := by
  intro fuel
  induction fuel with
  | zero =>
    intro input acc rest vs h
    simp [separated_list_loop] at h
  | succ n ih =>
    intro input acc rest vs h
    by_cases hi : input.isEmpty
    · simp [separated_list_loop, hi] at h
      exact h.1 ▸ List.suffix_refl _
    · cases hcomb : C input with
      | error be =>
        cases be with
        | Backtrace =>
          simp [separated_list_loop, hi, hcomb] at h
          exact h.1 ▸ List.suffix_refl _
        | Failure f => simp [separated_list_loop, hi, hcomb] at h
      | ok q =>
        obtain ⟨ri, v⟩ := q
        cases hs : sep ri with
        | ok w =>
          obtain ⟨ri2, sv⟩ := w
          simp [separated_list_loop, hi, hcomb, hs] at h
          exact ((ih ri2 (acc ++ [v]) rest vs h).trans (hsep ri ri2 sv hs)).trans
            (hC input ri v hcomb)
        | error se =>
          cases se with
          | Backtrace =>
            simp [separated_list_loop, hi, hcomb, hs] at h
            exact h.1 ▸ hC input ri v hcomb
          | Failure f => simp [separated_list_loop, hi, hcomb, hs] at h

theorem sp_many1 (C : List Char → ParseResult O) (hC : SuffixPreserving C)
    (fuel : Nat) (input rest : List Char) (vs : List O)
    (h : many1 fuel C input = some (.ok (rest, vs))) : rest <:+ input := by
  unfold many1 at h
  cases h0 : many0 fuel C input with
  | none => rw [h0] at h; simp at h
  | some r =>
    cases r with
    | error e => rw [h0] at h; simp at h
    | ok p =>
      obtain ⟨r1, items⟩ := p
      rw [h0] at h
      by_cases hne : items.isEmpty
      · simp [hne, ParseError.backtrace] at h
      · simp [hne] at h
        exact h.1 ▸ sp_many_till_loop C _ hC fuel input [] r1 items h0

/-- C6: the progress invariant — every primitive combinator returns a cursor
that is a suffix of its input (length non-increasing), and every composing
combinator of the library preserves this property of its arguments; for the
fuel-modelled repetition loops, any successful terminating run returns a
suffix of the input. -/
theorem progress_invariant :
    SuffixPreserving next_char ∧
    (∀ c, SuffixPreserving (ch c)) ∧
    (∀ v, SuffixPreserving (one_of v)) ∧
    (∀ s, SuffixPreserving (tag s)) ∧
    (∀ p, SuffixPreserving (skip_while p)) ∧
    (∀ p, SuffixPreserving (take_while p)) ∧
    SuffixPreserving whitespace ∧
    SuffixPreserving skip_whitespace ∧
    (∀ (O : Type) (C : List Char → ParseResult O),
        SuffixPreserving C → SuffixPreserving (check_not C)) ∧
    (∀ (O : Type) (C : List Char → ParseResult O) cond,
        SuffixPreserving C → SuffixPreserving (if_true C cond)) ∧
    (∀ (R : Type) (C : List Char → ParseResult (List R)),
        SuffixPreserving C → SuffixPreserving (if_not_empty C)) ∧
    (∀ (O : Type) (C : List Char → ParseResult O),
        SuffixPreserving C → SuffixPreserving (substring C)) ∧
    (∀ (O : Type) (C : List Char → ParseResult O),
        SuffixPreserving C → SuffixPreserving (maybe C)) ∧
    (∀ (O R : Type) (C : List Char → ParseResult O) (f : O → R),
        SuffixPreserving C → SuffixPreserving (map C f)) ∧
    (∀ (O : Type) (a b : List Char → ParseResult O),
        SuffixPreserving a → SuffixPreserving b → SuffixPreserving (or a b)) ∧
    (∀ (F S : Type) (a : List Char → ParseResult F) (b : List Char → ParseResult S),
        SuffixPreserving a → SuffixPreserving b → SuffixPreserving (pair a b)) ∧
    (∀ (F S : Type) (a : List Char → ParseResult F) (b : List Char → ParseResult S),
        SuffixPreserving a → SuffixPreserving b → SuffixPreserving (preceded a b)) ∧
    (∀ (F S : Type) (a : List Char → ParseResult F) (b : List Char → ParseResult S),
        SuffixPreserving a → SuffixPreserving b → SuffixPreserving (terminated a b)) ∧
    (∀ (F S T : Type) (a : List Char → ParseResult F)
        (b : List Char → ParseResult S) (c : List Char → ParseResult T),
        SuffixPreserving a → SuffixPreserving b → SuffixPreserving c →
        SuffixPreserving (delimited a b c)) ∧
    (∀ (O : Type) (C : List Char → ParseResult O) cond m,
        SuffixPreserving C → SuffixPreserving (assert C cond m)) ∧
    (∀ (O : Type) (C : List Char → ParseResult O) m,
        SuffixPreserving C → SuffixPreserving (assertExists C m)) ∧
    (∀ (O : Type) ni (C : List Char → ParseResult O),
        SuffixPreserving C → SuffixPreserving (with_failure_input ni C)) ∧
    (∀ (O : Type) (C : List Char → ParseResult O) m,
        SuffixPreserving C → SuffixPreserving (with_error_context C m)) ∧
    (∀ (O OC : Type) (C : List Char → ParseResult O)
        (cond : List Char → ParseResult OC) fuel input rest vs,
        SuffixPreserving C →
        many_till fuel C cond input = some (.ok (rest, vs)) → rest <:+ input) ∧
    (∀ (O : Type) (C : List Char → ParseResult O) fuel input rest vs,
        SuffixPreserving C →
        many0 fuel C input = some (.ok (rest, vs)) → rest <:+ input) ∧
    (∀ (O : Type) (C : List Char → ParseResult O) fuel input rest vs,
        SuffixPreserving C →
        many1 fuel C input = some (.ok (rest, vs)) → rest <:+ input) ∧
    (∀ (O S : Type) (C : List Char → ParseResult O)
        (sep : List Char → ParseResult S) fuel input rest vs,
        SuffixPreserving C → SuffixPreserving sep →
        separated_list fuel C sep input = some (.ok (rest, vs)) → rest <:+ input) :=
  ⟨sp_next_char, sp_ch, sp_one_of, sp_tag, sp_skip_while, sp_take_while,
    sp_whitespace, sp_skip_whitespace,
    fun _ C _ => sp_check_not C,
    fun _ C cond h => sp_if_true C cond h,
    fun _ C h => sp_if_not_empty C h,
    fun _ C h => sp_substring C h,
    fun _ C h => sp_maybe C h,
    fun _ _ C f h => sp_map C f h,
    fun _ a b ha hb => sp_or a b ha hb,
    fun _ _ a b ha hb => sp_pair a b ha hb,
    fun _ _ a b ha hb => sp_preceded a b ha hb,
    fun _ _ a b ha hb => sp_terminated a b ha hb,
    fun _ _ _ a b c ha hb hc => sp_delimited a b c ha hb hc,
    fun _ C cond m h => sp_assert C cond m h,
    fun _ C m h => sp_assertExists C m h,
    fun _ ni C h => sp_with_failure_input ni C h,
    fun _ C m h => sp_with_error_context C m h,
    fun _ _ C cond fuel input rest vs h hr =>
      sp_many_till_loop C cond h fuel input [] rest vs hr,
    fun _ C fuel input rest vs h hr =>
      sp_many_till_loop C _ h fuel input [] rest vs hr,
    fun _ C fuel input rest vs h hr => sp_many1 C h fuel input rest vs hr,
    fun _ _ C sep fuel input rest vs hc hs hr =>
      sp_separated_list_loop C sep hc hs fuel input [] rest vs hr⟩

/-- Witness for C6 at a concrete input: `next_char` on `"bc"` returns the
cursor `"c"`, a suffix of the input. -/
theorem progress_invariant_witness : ['c'] <:+ ['b', 'c'] :=
  progress_invariant.1 ['b', 'c'] ['c'] 'b' rfl

end Monch
